import Mathlib

/-!
Verification of the version-rotation engine of the esp32-storage-driver
repository (src/file_versioning.cpp, src/file_versioning.h,
src/storage_esp.cpp, src/storage_esp.h, src/storage_config.h).

The byte store underneath the engine (POSIX file operations reached through
the `storage_callbacks` interface, or directly in storage_esp.cpp) is
modelled as a finite association list from path strings to stored blobs,
together with a mounted flag and a set of paths whose writes fail (used to
model fopen/fwrite failures).  Machine integers are Nat with an explicit
`% 2^32` where the C++ u32 arithmetic can overflow.
-/

namespace StorageDriver

/-- STORAGE_MAX_VERSION_HISTORY from storage_config.h line 41 (H = 5). -/
def STORAGE_MAX_VERSION_HISTORY : Nat := 5

/-- Modulus of the C++ uint32_t type. -/
def U32_MOD : Nat := 4294967296

/-- file_version_metadata from file_versioning.h lines 93-106: fixed-size
metadata record with a capacity-5 inline array of archived version numbers.
(The storage_esp.h variant of the struct has an extra timestamp field that
none of the archive/cleanup code under verification reads or writes; it is
omitted here.) -/
structure FVMeta where
  current_version : Nat
  file_size : Nat
  checksum : Nat
  version_count : Nat
  versions : List Nat
  deriving DecidableEq

/-- The default-constructed metadata record (file_versioning.h lines 100-105):
all counters zero, the versions array zero-filled at capacity 5. -/
def defaultMeta : FVMeta :=
  { current_version := 0, file_size := 0, checksum := 0, version_count := 0,
    versions := List.replicate 5 0 }

/-- A stored object in the byte store: raw content bytes, or an encoded
metadata record.  The engine writes metadata records only through
save_metadata, whose byte-level encoding is verified separately by the
codec definitions below (encodeMeta / decodeMeta); at the engine level a
saved record is kept in decoded form. -/
inductive Blob where
  | bytes : List Nat → Blob
  | meta : FVMeta → Blob
  deriving DecidableEq

/-- The byte store: an association list from paths to blobs, the mounted
flag, and the set of paths whose writes fail (failure injection for the
fopen/fwrite error paths). -/
structure Store where
  files : List (String × Blob)
  mounted : Bool
  failWrites : List String
  deriving DecidableEq

/-- Association-list lookup (first match). -/
def lookupFile : List (String × Blob) → String → Option Blob
  | [], _ => none
  | (p, b) :: rest, q => if p = q then some b else lookupFile rest q

/-- Association-list update: replace the first binding of the path, or
append a new binding. -/
def setFile : List (String × Blob) → String → Blob → List (String × Blob)
  | [], p, b => [(p, b)]
  | (q, c) :: rest, p, b =>
      if q = p then (p, b) :: rest else (q, c) :: setFile rest p b

/-- Association-list removal of the first binding of the path. -/
def removeFile : List (String × Blob) → String → List (String × Blob)
  | [], _ => []
  | (q, c) :: rest, p => if q = p then rest else (q, c) :: removeFile rest p

/-- Size in bytes of a stored object.  A metadata blob always has the fixed
encoded size sizeof(file_version_metadata) = 4 * (4 + 5) = 36 bytes
(file_versioning.h struct layout with H = 5). -/
def blobSize : Blob → Nat
  | .bytes b => b.length
  | .meta _ => 36

/-- storage_esp::exists (storage_esp.cpp lines 210-222): false when
unmounted, otherwise stat on the path. -/
def fileExists (s : Store) (p : String) : Bool :=
  s.mounted && (lookupFile s.files p).isSome

/-- storage_esp::file_size (storage_esp.cpp lines 224-239): 0 when
unmounted or missing. -/
def fileSize (s : Store) (p : String) : Nat :=
  if s.mounted then
    match lookupFile s.files p with
    | some b => blobSize b
    | none => 0
  else 0

/-- Raw read of a content file (storage_esp.cpp read path): fails when
unmounted, absent, or when the object at the path is not raw bytes. -/
def readBytes (s : Store) (p : String) : Option (List Nat) :=
  if s.mounted then
    match lookupFile s.files p with
    | some (.bytes b) => some b
    | _ => none
  else none

/-- Raw write (storage_esp.cpp lines 272-308): fails when unmounted or when
the path is in the failure-injection set, otherwise replaces the object. -/
def writeBlob (s : Store) (p : String) (b : Blob) : Store × Bool :=
  if s.mounted && !(s.failWrites.contains p) then
    ({ s with files := setFile s.files p b }, true)
  else (s, false)

/-- storage_esp::erase_file (storage_esp.cpp lines 310-330): unlink, false
when unmounted or when the path is absent. -/
def deleteFile (s : Store) (p : String) : Store × Bool :=
  if s.mounted && (lookupFile s.files p).isSome then
    ({ s with files := removeFile s.files p }, true)
  else (s, false)

/-- file_versioning::get_metadata_path (file_versioning.cpp lines 327-329):
key + ".meta".  The base-path prefix added by get_full_path is a fixed
injective decoration of every path and is dropped. -/
def metaPath (key : String) : String := key ++ ".meta"

/-- file_versioning::get_version_path (file_versioning.cpp lines 331-335):
key + ".v" + decimal version number. -/
def versionPath (key : String) (v : Nat) : String :=
  key ++ ".v" ++ toString v

/-- file_versioning::load_metadata (file_versioning.cpp lines 337-354): a
missing object, a size differing from sizeof(file_version_metadata), or a
failed read all yield the default record; an intact stored record is
returned as stored.  The function itself always reports success. -/
def load_metadata (s : Store) (key : String) : FVMeta :=
  if s.mounted then
    match lookupFile s.files (metaPath key) with
    | some (.meta r) => r
    | _ => defaultMeta
  else defaultMeta

/-- file_versioning::save_metadata (file_versioning.cpp lines 356-365). -/
def save_metadata (s : Store) (key : String) (m : FVMeta) : Store × Bool :=
  writeBlob s (metaPath key) (.meta m)

/-- The CRC32 polynomial constant from file_versioning.cpp line 372. -/
def CRC32_POLY : Nat := 0xEDB88320

/-- One iteration of the inner bit loop of calculate_crc32
(file_versioning.cpp lines 376-382). -/
def crcRound (c : Nat) : Nat :=
  if c &&& 1 = 1 then (c >>> 1) ^^^ CRC32_POLY else c >>> 1

/-- n iterations of the inner bit loop. -/
def crcRounds : Nat → Nat → Nat
  | 0, c => c
  | n + 1, c => crcRounds n (crcRound c)

/-- file_versioning::calculate_crc32 (file_versioning.cpp lines 367-386);
storage_esp::_calculate_crc32 (storage_esp.cpp lines 855-876) is
byte-for-byte the same algorithm. -/
def calculate_crc32 (data : List Nat) : Nat :=
  (data.foldl (fun c byte => crcRounds 8 (c ^^^ byte)) 0xFFFFFFFF) ^^^ 0xFFFFFFFF

/-- The oldest-version scan of cleanup_oldest_version (file_versioning.cpp
lines 394-403): start from versions[0] and index 0, replace whenever a
strictly smaller non-zero entry is found among indices 1..count-1.
Returns (oldest version, its index). -/
def findOldest (vs : List Nat) (count : Nat) : Nat × Nat :=
  (List.range' 1 (count - 1)).foldl
    (fun acc i =>
      let v := vs.getD i 0
      if v < acc.1 && v != 0 then (v, i) else acc)
    (vs.getD 0 0, 0)

/-- The array-shift loop of cleanup_oldest_version (file_versioning.cpp
lines 413-415): versions[i] := versions[i+1], starting at index i and
iterating the given number of steps. -/
def shiftFrom : List Nat → Nat → Nat → List Nat
  | vs, _, 0 => vs
  | vs, i, steps + 1 => shiftFrom (vs.set i (vs.getD (i + 1) 0)) (i + 1) steps

/-- The record effect of a successful cleanup_oldest_version
(file_versioning.cpp lines 412-417): shift the array left from the evicted
index, zero the last used slot, decrement the count. -/
def cleanupShift (m : FVMeta) (oldest_index : Nat) : FVMeta :=
  let vs1 := shiftFrom m.versions oldest_index
    (m.version_count - 1 - oldest_index)
  let vs2 := vs1.set (m.version_count - 1) 0
  { m with versions := vs2, version_count := m.version_count - 1 }

/-- file_versioning::cleanup_oldest_version (file_versioning.cpp lines
388-423): find the oldest version, delete its archived bytes, and on
successful deletion remove it from the version list. -/
def cleanup_oldest_version (s : Store) (key : String) (m : FVMeta) :
    Store × FVMeta × Bool :=
  if m.version_count = 0 then (s, m, false)
  else
    let ov := findOldest m.versions m.version_count
    let del := deleteFile s (versionPath key ov.1)
    if del.2 then (del.1, cleanupShift m ov.2, true)
    else (s, m, false)

/-- file_versioning::archive_current_version (file_versioning.cpp lines
190-246): copy the current content of the key to the version-suffixed
archive path, then register current_version in the version list — appending
below capacity, and at capacity evicting the oldest entry and then storing
the new number at index version_count - 1 (the source does not re-increment
version_count in that branch).  The metadata used throughout is loaded
locally at line 199 and saved at line 239. -/
def archive_current_version (s : Store) (key : String) : Store × Bool :=
  if !(fileExists s key) then (s, false)
  else
    let m := load_metadata s key
    let archivePath := versionPath key m.current_version
    if fileSize s key = 0 then (s, false)
    else
      match readBytes s key with
      | none => (s, false)
      | some content =>
        let w := writeBlob s archivePath (.bytes content)
        if !w.2 then (w.1, false)
        else
          let s1 := w.1
          let vexists := (m.versions.take m.version_count).contains
            m.current_version
          if vexists then (s1, true)
          else
            if m.version_count < STORAGE_MAX_VERSION_HISTORY then
              let m1 := { m with
                versions := m.versions.set m.version_count m.current_version,
                version_count := m.version_count + 1 }
              ((save_metadata s1 key m1).1, true)
            else
              let c := cleanup_oldest_version s1 key m
              let m1 := c.2.1
              let m2 := { m1 with
                versions :=
                  m1.versions.set (m1.version_count - 1) m.current_version }
              ((save_metadata c.1 key m2).1, true)

/-- file_versioning::on_before_write (file_versioning.cpp lines 298-323):
when unmounted, return true (allow the write to proceed).  Otherwise load
the metadata (line 308), archive the existing content if the key exists
(line 312, return value ignored; archive_current_version loads and saves
its own copy of the record), then increment current_version and recompute
size and checksum on the copy loaded at line 308, and save that copy
(line 320).  Always returns true. -/
def on_before_write (s : Store) (key : String) (data : List Nat) :
    Store × Bool :=
  if !s.mounted then (s, true)
  else
    let m := load_metadata s key
    let s1 := if fileExists s key then (archive_current_version s key).1
              else s
    let m1 := { m with
      current_version := (m.current_version + 1) % U32_MOD,
      file_size := data.length % U32_MOD,
      checksum := calculate_crc32 data }
    ((save_metadata s1 key m1).1, true)

/-- Modelled from the spec: the host that installs storage_callbacks for
file_versioning is not under src/ (only the class and its callers'
comments are).  Per spec section 2 and section 4.3, and the comment at
file_versioning.cpp line 178, a write request first runs the version hook
on_before_write and then the byte store persists the new content under the
unsuffixed key; the write's return value is the byte store's. -/
def write_full (s : Store) (key : String) (data : List Nat) : Store × Bool :=
  let h := on_before_write s key data
  if h.2 then writeBlob h.1 key (.bytes data) else (h.1, false)

/-- file_versioning::restore_file_version (file_versioning.cpp lines
153-186): the archived version must exist with non-zero size; its bytes are
read and re-issued through the versioned write path (comment at line 178:
"this will create a new version automatically via on_before_write"). -/
def restore_file_version (s : Store) (key : String) (version : Nat) :
    Store × Bool :=
  if !s.mounted then (s, false)
  else
    let vpath := versionPath key version
    if fileSize s vpath = 0 then (s, false)
    else
      match readBytes s vpath with
      | none => (s, false)
      | some data => write_full s key data

/-- file_versioning::read_file_version (file_versioning.cpp lines 122-151):
version 0 reads the unsuffixed key, any other version reads the
version-suffixed path; the read fails if the file holds fewer bytes than
the caller's buffer demands (fread short-read check), and on success the
buffer holds the first dataSize bytes. -/
def read_file_version (s : Store) (key : String) (version : Nat)
    (dataSize : Nat) : Option (List Nat) :=
  if !s.mounted then none
  else
    let path := if version = 0 then key else versionPath key version
    match readBytes s path with
    | none => none
    | some b => if dataSize ≤ b.length then some (b.take dataSize) else none

/-- file_versioning::get_file_version (file_versioning.cpp lines 36-50):
0 when unmounted or when the key does not exist; load_metadata always
succeeds, so its failure branch is dead. -/
def get_file_version (s : Store) (key : String) : Nat :=
  if !(fileExists s key) then 0
  else (load_metadata s key).current_version

/-- file_versioning::get_file_version_info (file_versioning.cpp lines
52-70), returning (version, size, is_current). -/
def get_file_version_info (s : Store) (key : String) :
    Option (Nat × Nat × Bool) :=
  if !(fileExists s key) then none
  else
    let m := load_metadata s key
    some (m.current_version, m.file_size, true)

/-- file_versioning::file_has_changed (file_versioning.cpp lines 248-262):
strictly-greater comparison of the current version against the caller's
last known version. -/
def file_has_changed (s : Store) (key : String) (last_known : Nat) : Bool :=
  if !(fileExists s key) then false
  else decide (last_known < (load_metadata s key).current_version)

/-- An entry of the version listing (file_version_info,
file_versioning.h lines 17-21). -/
structure VersionInfo where
  version : Nat
  size : Nat
  is_current : Bool
  deriving DecidableEq

/-- Insertion into a list sorted by version number descending, matching the
std::sort comparator a.version > b.version of file_versioning.cpp lines
112-115 (version numbers are issued uniquely per key, so comparator ties do
not occur on engine-produced data). -/
def insertByVersionDesc (x : VersionInfo) :
    List VersionInfo → List VersionInfo
  | [] => [x]
  | y :: ys =>
      if y.version < x.version then x :: y :: ys
      else y :: insertByVersionDesc x ys

/-- Sort by version number descending (newest first). -/
def sortByVersionDesc (l : List VersionInfo) : List VersionInfo :=
  l.foldr insertByVersionDesc []

/-- file_versioning::list_file_versions (file_versioning.cpp lines 72-118):
empty when unmounted or the key is absent; otherwise the current entry plus
one entry per non-zero history slot whose archived bytes still exist, sorted
newest-first. -/
def list_file_versions (s : Store) (key : String) : List VersionInfo :=
  if !(fileExists s key) then []
  else
    let m := load_metadata s key
    let current : VersionInfo :=
      { version := m.current_version, size := m.file_size, is_current := true }
    let hist := (List.range m.version_count).filterMap (fun i =>
      let vn := m.versions.getD i 0
      if vn = 0 then none
      else
        let vsize := fileSize s (versionPath key vn)
        if 0 < vsize then
          some { version := vn, size := vsize, is_current := false }
        else none)
    sortByVersionDesc (current :: hist)

/-- The while loop of cleanup_old_versions (file_versioning.cpp lines
280-286): evict while version_count exceeds STORAGE_MAX_VERSION_HISTORY,
stopping on a failed eviction.  Each successful eviction decrements
version_count, so version_count is sufficient fuel. -/
def cleanupLoop : Nat → Store → String → FVMeta → Nat → Store × FVMeta × Nat
  | 0, s, _, m, cleaned => (s, m, cleaned)
  | fuel + 1, s, key, m, cleaned =>
    if STORAGE_MAX_VERSION_HISTORY < m.version_count then
      let c := cleanup_oldest_version s key m
      if c.2.2 then cleanupLoop fuel c.1 key c.2.1 (cleaned + 1)
      else (s, m, cleaned)
    else (s, m, cleaned)

/-- file_versioning::cleanup_old_versions (file_versioning.cpp lines
264-296): 0 when unmounted or the key is empty; otherwise evict history
entries beyond the limit and persist the record only when something was
evicted. -/
def cleanup_old_versions (s : Store) (key : String) : Store × Nat :=
  if !s.mounted || key = "" then (s, 0)
  else
    let m := load_metadata s key
    let r := cleanupLoop m.version_count s key m 0
    if 0 < r.2.2 then ((save_metadata r.1 key r.2.1).1, r.2.2)
    else (s, r.2.2)

/-- storage_esp::_cleanup_oldest_version (storage_esp.cpp lines 939-972):
the same algorithm as file_versioning::cleanup_oldest_version. -/
def esp_cleanup_oldest_version (s : Store) (key : String) (m : FVMeta) :
    Store × FVMeta × Bool :=
  if m.version_count = 0 then (s, m, false)
  else
    let ov := findOldest m.versions m.version_count
    let del := deleteFile s (versionPath key ov.1)
    if del.2 then (del.1, cleanupShift m ov.2, true)
    else (s, m, false)

/-- storage_esp::_archive_current_version (storage_esp.cpp lines 878-937):
takes the caller's metadata record by reference and mutates it; at capacity
it evicts the oldest entry, then appends the new number at the post-cleanup
version_count and re-increments the count (lines 928-933).  When the
eviction's unlink fails, the C++ writes versions[STORAGE_MAX_VERSION_HISTORY]
out of bounds; List.set is a no-op at that index, so the model stays within
the record. -/
def esp_archive_current_version (s : Store) (key : String) (m : FVMeta) :
    Store × FVMeta × Bool :=
  let archivePath := versionPath key m.current_version
  match readBytes s key with
  | none => (s, m, false)
  | some content =>
    let w := writeBlob s archivePath (.bytes content)
    if !w.2 then (w.1, m, false)
    else
      let s1 := w.1
      let vexists := (m.versions.take m.version_count).contains
        m.current_version
      if !vexists && decide (m.version_count < STORAGE_MAX_VERSION_HISTORY)
      then
        (s1, { m with
          versions := m.versions.set m.version_count m.current_version,
          version_count := m.version_count + 1 }, true)
      else if !vexists then
        let c := esp_cleanup_oldest_version s1 key m
        let m1 := c.2.1
        (c.1, { m1 with
          versions := m1.versions.set m1.version_count m.current_version,
          version_count := m1.version_count + 1 }, true)
      else (s1, m, true)

/-- The metadata effect of the version-list update of
file_versioning::archive_current_version (lines 221-240), under a
successful archive copy and a successful oldest-version delete. -/
def fv_history_update (m : FVMeta) : FVMeta :=
  if (m.versions.take m.version_count).contains m.current_version then m
  else if m.version_count < STORAGE_MAX_VERSION_HISTORY then
    { m with versions := m.versions.set m.version_count m.current_version,
             version_count := m.version_count + 1 }
  else
    let m1 := cleanupShift m (findOldest m.versions m.version_count).2
    { m1 with
      versions := m1.versions.set (m1.version_count - 1) m.current_version }

/-- The metadata effect of the version-list update of
storage_esp::_archive_current_version (lines 916-933), under a successful
archive copy and a successful oldest-version delete. -/
def esp_history_update (m : FVMeta) : FVMeta :=
  if (m.versions.take m.version_count).contains m.current_version then m
  else if m.version_count < STORAGE_MAX_VERSION_HISTORY then
    { m with versions := m.versions.set m.version_count m.current_version,
             version_count := m.version_count + 1 }
  else
    let m1 := cleanupShift m (findOldest m.versions m.version_count).2
    { m1 with
      versions := m1.versions.set m1.version_count m.current_version,
      version_count := m1.version_count + 1 }

/-- Little-endian byte encoding of one u32 field of the metadata struct. -/
def encodeU32 (n : Nat) : List Nat :=
  [n % 256, n / 256 % 256, n / 65536 % 256, n / 16777216 % 256]

/-- Little-endian u32 decode at byte offset i. -/
def decodeU32at (bs : List Nat) (i : Nat) : Nat :=
  bs.getD i 0 + 256 * bs.getD (i + 1) 0 + 65536 * bs.getD (i + 2) 0
    + 16777216 * bs.getD (i + 3) 0

/-- The raw 36-byte image of file_version_metadata (file_versioning.h lines
93-106): current_version, file_size, checksum, version_count, then the
five-slot versions array, each a little-endian u32. -/
def encodeMeta (m : FVMeta) : List Nat :=
  encodeU32 m.current_version ++ encodeU32 m.file_size
    ++ encodeU32 m.checksum ++ encodeU32 m.version_count
    ++ m.versions.foldr (fun v acc => encodeU32 v ++ acc) []

/-- Byte-level decode as performed by reading the raw struct back
(file_versioning.cpp lines 340-351): a buffer whose length is not exactly
sizeof(file_version_metadata) = 36 yields the default record. -/
def decodeMeta (bs : List Nat) : FVMeta :=
  if bs.length = 36 then
    { current_version := decodeU32at bs 0, file_size := decodeU32at bs 4,
      checksum := decodeU32at bs 8, version_count := decodeU32at bs 12,
      versions := [decodeU32at bs 16, decodeU32at bs 20, decodeU32at bs 24,
        decodeU32at bs 28, decodeU32at bs 32] }
  else defaultMeta

/-- Byte-level load_metadata (file_versioning.cpp lines 337-354) on the
outcome of get_file_size plus read_file: none models an absent or
unreadable metadata object. -/
def load_metadata_blob : Option (List Nat) → FVMeta
  | none => defaultMeta
  | some bs => if bs.length = 36 then decodeMeta bs else defaultMeta

/-- A metadata record representable by the C++ struct: u32 fields and a
five-slot u32 array. -/
def MetaWF (m : FVMeta) : Prop :=
  m.current_version < U32_MOD ∧ m.file_size < U32_MOD
    ∧ m.checksum < U32_MOD ∧ m.version_count < U32_MOD
    ∧ m.versions.length = 5 ∧ ∀ v ∈ m.versions, v < U32_MOD

instance (m : FVMeta) : Decidable (MetaWF m) := by
  unfold MetaWF; infer_instance

/-- One bit of the bit-serial CRC-32 described by the spec: xor the message
bit into the running remainder, then shift right, xoring the reflected
polynomial 0xEDB88320 when the bit shifted out was set. -/
def crcSpecBit (c b : Nat) : Nat :=
  let t := c ^^^ (b &&& 1)
  if t &&& 1 = 1 then (t >>> 1) ^^^ CRC32_POLY else t >>> 1

/-- Feed the low n bits of b, least significant first, into the bit-serial
CRC-32. -/
def crcSpecBits : Nat → Nat → Nat → Nat
  | 0, c, _ => c
  | n + 1, c, b => crcSpecBits n (crcSpecBit c b) (b >>> 1)

/-- CRC-32/ISO-HDLC as the spec words it (section 4.2): bit-serial,
polynomial 0xEDB88320 in reflected bit order, each byte fed least
significant bit first, initial and final XOR 0xFFFFFFFF. -/
def crc32_spec (data : List Nat) : Nat :=
  (data.foldl (fun c byte => crcSpecBits 8 c byte) 0xFFFFFFFF) ^^^ 0xFFFFFFFF

/-- Lock events against the single process-wide storage_mutex of
storage_esp (storage_esp.h lines 45-64: a non-recursive FreeRTOS mutex
taken with portMAX_DELAY). -/
inductive LockEv where
  | acq
  | rel
  deriving DecidableEq

/-- Whether a trace attempts to take the mutex while it is already held by
the same logical operation — a self-deadlock for a non-recursive mutex
taken with an unbounded wait. -/
def reacqAux : Nat → List LockEv → Bool
  | _, [] => false
  | d, .acq :: rest => if 0 < d then true else reacqAux (d + 1) rest
  | d, .rel :: rest => reacqAux (d - 1) rest

/-- Detect an acquisition performed at positive lock depth. -/
def reacquiresWhileHeld (tr : List LockEv) : Bool := reacqAux 0 tr

/-- Lock trace of storage_esp::exists (storage_esp.cpp lines 210-222):
guard the whole body. -/
def esp_exists_trace : List LockEv := [.acq, .rel]

/-- Lock trace of storage_esp::write_file (storage_esp.cpp lines 272-308):
guard the whole body. -/
def esp_write_file_trace : List LockEv := [.acq, .rel]

/-- Lock trace of storage_esp::get_file_version (storage_esp.cpp lines
585-599) on a mounted store: the method guards its body and then calls the
public exists(key) — not a lock-free helper — while the guard is held. -/
def esp_get_file_version_trace : List LockEv :=
  [.acq] ++ esp_exists_trace ++ [.rel]

/-- Lock trace of storage_esp::restore_file_version (storage_esp.cpp lines
720-762) on a mounted store with the archived version present: the method
guards its body and then calls the public write_file — not a lock-free
helper — while the guard is held (line 755). -/
def esp_restore_trace : List LockEv :=
  [.acq] ++ esp_write_file_trace ++ [.rel]

set_option maxRecDepth 40000

/-! Helper lemmas about the byte-store primitives. -/

theorem lookupFile_setFile_self (fs : List (String × Blob)) (p : String)
    (b : Blob) : lookupFile (setFile fs p b) p = some b := by
  induction fs with
  | nil => simp [setFile, lookupFile]
  | cons hd tl ih =>
    obtain ⟨r, c⟩ := hd
    by_cases hrp : r = p
    · subst hrp; simp [setFile, lookupFile]
    · simp [setFile, lookupFile, hrp, ih]

theorem lookupFile_setFile_ne (fs : List (String × Blob)) (p q : String)
    (b : Blob) (h : p ≠ q) :
    lookupFile (setFile fs p b) q = lookupFile fs q := by
  induction fs with
  | nil => simp [setFile, lookupFile, h]
  | cons hd tl ih =>
    obtain ⟨r, c⟩ := hd
    by_cases hrp : r = p
    · subst hrp; simp [setFile, lookupFile, h]
    · simp [setFile, lookupFile, hrp, ih]

theorem writeBlob_flags (s : Store) (p : String) (b : Blob) :
    ((writeBlob s p b).1).mounted = s.mounted
    ∧ ((writeBlob s p b).1).failWrites = s.failWrites := by
  unfold writeBlob; split <;> exact ⟨rfl, rfl⟩

theorem deleteFile_flags (s : Store) (p : String) :
    ((deleteFile s p).1).mounted = s.mounted
    ∧ ((deleteFile s p).1).failWrites = s.failWrites := by
  unfold deleteFile; split <;> exact ⟨rfl, rfl⟩

theorem cleanup_oldest_flags (s : Store) (key : String) (m : FVMeta) :
    ((cleanup_oldest_version s key m).1).mounted = s.mounted
    ∧ ((cleanup_oldest_version s key m).1).failWrites = s.failWrites := by
  simp only [cleanup_oldest_version]
  split
  · exact ⟨rfl, rfl⟩
  · split
    · exact deleteFile_flags s _
    · exact ⟨rfl, rfl⟩

theorem archive_flags (s : Store) (key : String) :
    ((archive_current_version s key).1).mounted = s.mounted
    ∧ ((archive_current_version s key).1).failWrites = s.failWrites := by
  simp only [archive_current_version]
  split
  · exact ⟨rfl, rfl⟩
  · split
    · exact ⟨rfl, rfl⟩
    · split
      · exact ⟨rfl, rfl⟩
      · next content heq =>
        split
        · exact writeBlob_flags s _ _
        · split
          · exact writeBlob_flags s _ _
          · split
            · obtain ⟨h1, h2⟩ := writeBlob_flags s
                (versionPath key (load_metadata s key).current_version)
                (Blob.bytes content)
              obtain ⟨h3, h4⟩ := writeBlob_flags
                (writeBlob s
                  (versionPath key (load_metadata s key).current_version)
                  (Blob.bytes content)).1
                (metaPath key) _
              exact ⟨h3.trans h1, h4.trans h2⟩
            · obtain ⟨h1, h2⟩ := writeBlob_flags s
                (versionPath key (load_metadata s key).current_version)
                (Blob.bytes content)
              obtain ⟨h5, h6⟩ := cleanup_oldest_flags
                (writeBlob s
                  (versionPath key (load_metadata s key).current_version)
                  (Blob.bytes content)).1 key (load_metadata s key)
              obtain ⟨h3, h4⟩ := writeBlob_flags
                (cleanup_oldest_version
                  (writeBlob s
                    (versionPath key (load_metadata s key).current_version)
                    (Blob.bytes content)).1 key (load_metadata s key)).1
                (metaPath key) _
              exact ⟨(h3.trans h5).trans h1, (h4.trans h6).trans h2⟩

theorem on_before_write_flags (s : Store) (key : String) (data : List Nat) :
    ((on_before_write s key data).1).mounted = s.mounted
    ∧ ((on_before_write s key data).1).failWrites = s.failWrites := by
  simp only [on_before_write]
  split
  · exact ⟨rfl, rfl⟩
  · by_cases hfe : fileExists s key = true
    · simp only [hfe, if_true]
      obtain ⟨h1, h2⟩ := archive_flags s key
      obtain ⟨h3, h4⟩ := writeBlob_flags (archive_current_version s key).1
        (metaPath key) _
      exact ⟨h3.trans h1, h4.trans h2⟩
    · simp only [Bool.not_eq_true] at hfe
      simp only [hfe, Bool.false_eq_true, if_false]
      exact writeBlob_flags s (metaPath key) _

theorem on_before_write_proceeds (s : Store) (key : String)
    (data : List Nat) : (on_before_write s key data).2 = true := by
  simp only [on_before_write]
  split <;> rfl

/-! Claim theorems. -/

/-- The fresh key, capacity-5 metadata state and the byte store used as
concrete inputs below. -/
def mFull : FVMeta :=
  { current_version := 6, file_size := 1, checksum := 0, version_count := 5,
    versions := [1, 2, 3, 4, 5] }

/-- A mounted store holding a key at current version 6 with a full history
1..5 and all five archived objects present. -/
def sFull : Store :=
  { files := [("f", .bytes [7]), ("f.meta", .meta mFull),
      ("f.v1", .bytes [10]), ("f.v2", .bytes [20]), ("f.v3", .bytes [30]),
      ("f.v4", .bytes [40]), ("f.v5", .bytes [50])],
    mounted := true, failWrites := [] }

/-- C1: after n = 2 successful writes to the fresh key "f" the persisted
current_version is 2 as the claim states, but the persisted history holds
0 entries instead of the claimed min(n-1, H) = 1: on_before_write saves the
metadata copy it loaded at line 308, which predates the version-list update
that archive_current_version loaded, made and saved itself, so the appended
history entry is clobbered on every write. -/
theorem C1_write_clobbers_history :
    (write_full ⟨[], true, []⟩ "f" [1]).2 = true
    ∧ (write_full (write_full ⟨[], true, []⟩ "f" [1]).1 "f" [2]).2 = true
    ∧ get_file_version
        (write_full (write_full ⟨[], true, []⟩ "f" [1]).1 "f" [2]).1 "f" = 2
    ∧ (load_metadata
        (write_full (write_full ⟨[], true, []⟩ "f" [1]).1 "f" [2]).1
        "f").version_count = 0 := by
  decide

/-- C3: archiving version 6 into the at-capacity history [1,2,3,4,5]
evicts the oldest entry 1 and deletes its bytes, but then overwrites the
last remaining slot with 6 instead of appending: version 5 disappears from
the history even though its archived bytes are still on the store, and the
history length drops to H - 1 = 4 — not the claimed evict-oldest-then-append
behaviour, which would give [2,3,4,5,6] at length 5. -/
theorem C3_eviction_drops_newest :
    (archive_current_version sFull "f").2 = true
    ∧ load_metadata (archive_current_version sFull "f").1 "f"
        = { current_version := 6, file_size := 1, checksum := 0,
            version_count := 4, versions := [2, 3, 4, 6, 0] }
    ∧ lookupFile ((archive_current_version sFull "f").1).files "f.v1" = none
    ∧ lookupFile ((archive_current_version sFull "f").1).files "f.v5"
        = some (.bytes [50]) := by
  decide

/-- C4: on a mounted store, storage_esp::restore_file_version takes the
process-wide non-recursive storage_mutex and then calls the public
write_file, which takes it again, and storage_esp::get_file_version
likewise calls the public exists while holding the guard — the nested
calls do not go through the lock-free _impl helpers the header declares,
so both traces acquire the lock at positive depth (self-deadlock under
portMAX_DELAY). -/
theorem C4_lock_reacquired :
    reacquiresWhileHeld esp_restore_trace = true
    ∧ reacquiresWhileHeld esp_get_file_version_trace = true := by
  decide

/-- C5: the return value of the versioned write is exactly "the byte store
accepted the new content": archive-copy failures (and metadata-save
failures) inside on_before_write are ignored and the hook always allows the
write to proceed. -/
theorem C5_archive_failure_nonfatal (s : Store) (key : String)
    (data : List Nat) (hm : s.mounted = true) :
    (write_full s key data).2 = true
      ↔ s.failWrites.contains key = false := by
  simp only [write_full, on_before_write_proceeds, if_true]
  obtain ⟨h1, h2⟩ := on_before_write_flags s key data
  simp only [writeBlob, h1, h2, hm, Bool.true_and]
  by_cases hc : key ∈ s.failWrites
  · simp [hc]
  · simp [hc]

/-- C5 witness: a store where the archive copy of the current version 3
must go to path "g.v3", whose writes fail; the write still succeeds. -/
theorem C5_archive_failure_witness :
    (write_full
      ⟨[("g", .bytes [1]),
        ("g.meta", .meta ⟨3, 1, 0, 0, [0, 0, 0, 0, 0]⟩)], true, ["g.v3"]⟩
      "g" [9]).2 = true :=
  (C5_archive_failure_nonfatal
    ⟨[("g", .bytes [1]),
      ("g.meta", .meta ⟨3, 1, 0, 0, [0, 0, 0, 0, 0]⟩)], true, ["g.v3"]⟩
    "g" [9] rfl).mpr (by decide)

/-- C8 counterexample: the write path's version hook on an unmounted store
returns true (file_versioning.cpp lines 303-305, "Allow write to
proceed"), not the false result the claim asserts. -/
theorem C8_hook_allows_write_unmounted :
    (on_before_write ⟨[], false, []⟩ "k" [0]).2 ≠ false := by
  decide

/-- C8 amended: on an unmounted store every versioning operation returns
its neutral result without panicking — 0 for version queries and cleanup,
none/false for info, read, restore and change-check, the empty list for
listing — except the write hook, which returns true and leaves the
rejection of the write to the raw write path's own mounted check. -/
theorem C8_unmounted_fail_fast (s : Store) (hm : s.mounted = false) :
    ∀ (key : String) (v n last : Nat) (data : List Nat),
    get_file_version s key = 0
    ∧ get_file_version_info s key = none
    ∧ list_file_versions s key = []
    ∧ read_file_version s key v n = none
    ∧ (restore_file_version s key v).2 = false
    ∧ file_has_changed s key last = false
    ∧ (cleanup_old_versions s key).2 = 0
    ∧ (on_before_write s key data).2 = true := by
  intro key v n last data
  have hfe : fileExists s key = false := by simp [fileExists, hm]
  refine ⟨?_, ?_, ?_, ?_, ?_, ?_, ?_, ?_⟩ <;>
    simp [get_file_version, get_file_version_info, list_file_versions,
      read_file_version, restore_file_version, file_has_changed,
      cleanup_old_versions, on_before_write, hm, hfe]

/-- C8 witness: the amended statement applied to a concrete unmounted
store holding one file. -/
theorem C8_unmounted_witness :
    (restore_file_version ⟨[("f", Blob.bytes [1])], false, []⟩ "f" 2).2
      = false :=
  (C8_unmounted_fail_fast ⟨[("f", Blob.bytes [1])], false, []⟩ rfl
    "f" 2 1 0 [5]).2.2.2.2.1

/-- C9 counterexample: on the at-capacity record with history [1,2,3,4,5]
and current version 6, the two archive implementations produce different
records — file_versioning drops to 4 entries [2,3,4,6], storage_esp keeps
5 entries [2,3,4,5,6]. -/
theorem C9_archive_impls_differ :
    fv_history_update mFull ≠ esp_history_update mFull
    ∧ fv_history_update mFull
        = { current_version := 6, file_size := 1, checksum := 0,
            version_count := 4, versions := [2, 3, 4, 6, 0] }
    ∧ esp_history_update mFull
        = { current_version := 6, file_size := 1, checksum := 0,
            version_count := 5, versions := [2, 3, 4, 5, 6] } := by
  decide

/-- C9 amended: the two implementations of the archive metadata update
agree on every record whose history is below capacity, and on every record
whose current version is already registered; they diverge only on the
at-capacity eviction branch. -/
theorem C9_equiv_below_capacity (m : FVMeta)
    (h : m.version_count < STORAGE_MAX_VERSION_HISTORY
      ∨ m.current_version ∈ m.versions.take m.version_count) :
    fv_history_update m = esp_history_update m := by
  rcases h with h | h
  · by_cases hc : m.current_version ∈ m.versions.take m.version_count
    · simp [fv_history_update, esp_history_update, hc]
    · simp [fv_history_update, esp_history_update, hc, h]
  · simp [fv_history_update, esp_history_update, h]

/-- C9 witness: the equivalence applied to a below-capacity record. -/
theorem C9_equiv_witness :
    fv_history_update ⟨1, 0, 0, 0, [0, 0, 0, 0, 0]⟩
      = esp_history_update ⟨1, 0, 0, 0, [0, 0, 0, 0, 0]⟩ :=
  C9_equiv_below_capacity ⟨1, 0, 0, 0, [0, 0, 0, 0, 0]⟩ (Or.inl (by decide))

/-! CRC-32 lemmas: the byte-at-a-time loop of the source equals the
bit-serial CRC the spec describes. -/

theorem xor_shiftRight_one (x y : Nat) :
    (x ^^^ y) >>> 1 = (x >>> 1) ^^^ (y >>> 1) := by
  apply Nat.eq_of_testBit_eq
  intro i
  simp [Nat.testBit_shiftRight, Nat.testBit_xor]

theorem xor_small_shiftRight_one (c e : Nat) (h : e < 2) :
    (c ^^^ e) >>> 1 = c >>> 1 := by
  apply Nat.eq_of_testBit_eq
  intro i
  simp only [Nat.testBit_shiftRight, Nat.testBit_xor]
  have he : e.testBit (1 + i) = false := by
    apply Nat.testBit_eq_false_of_lt
    calc e < 2 := h
    _ = 2 ^ 1 := rfl
    _ ≤ 2 ^ (1 + i) := Nat.pow_le_pow_right (by norm_num) (by omega)
  simp [he]

theorem and_xor_distrib_right_nat (a b k : Nat) :
    (a ^^^ b) &&& k = (a &&& k) ^^^ (b &&& k) := by
  apply Nat.eq_of_testBit_eq
  intro i
  simp [Nat.testBit_and, Nat.testBit_xor, Bool.and_xor_distrib_right]

/-- One source round on a state with a pending message word equals one
spec bit-step on the low bit plus carrying the remaining bits along. -/
theorem crcRound_xor (c b : Nat) :
    crcRound (c ^^^ b) = crcSpecBit c b ^^^ (b >>> 1) := by
  have hb1 : b &&& 1 < 2 := by
    have := @Nat.and_le_right b 1
    omega
  have hcond : (c ^^^ b) &&& 1 = (c ^^^ (b &&& 1)) &&& 1 := by
    rw [and_xor_distrib_right_nat, and_xor_distrib_right_nat, Nat.and_assoc,
      Nat.and_self]
  have hshift : (c ^^^ b) >>> 1 = ((c ^^^ (b &&& 1)) >>> 1) ^^^ (b >>> 1) := by
    rw [xor_shiftRight_one, xor_small_shiftRight_one c (b &&& 1) hb1,
      ← xor_shiftRight_one]
  simp only [crcRound, crcSpecBit, hcond]
  split
  · rw [hshift, Nat.xor_assoc, Nat.xor_comm (b >>> 1) CRC32_POLY,
      ← Nat.xor_assoc]
  · rw [hshift]

/-- Running n source rounds on a state xored with a message word equals
feeding the word's n low bits into the bit-serial CRC, with the unconsumed
high bits still pending. -/
theorem crcRounds_eq_specBits (n : Nat) :
    ∀ c b : Nat, crcRounds n (c ^^^ b) = crcSpecBits n c b ^^^ (b >>> n) := by
  induction n with
  | zero => intro c b; simp [crcRounds, crcSpecBits]
  | succ k ih =>
    intro c b
    have h1 : crcRounds (k + 1) (c ^^^ b) = crcRounds k (crcRound (c ^^^ b)) :=
      rfl
    rw [h1, crcRound_xor, ih (crcSpecBit c b) (b >>> 1),
      ← Nat.shiftRight_add, Nat.add_comm 1 k]
    rfl

/-- For a byte value, the 8-round source loop is exactly the spec's 8
bit-steps. -/
theorem crcRounds8_byte (c b : Nat) (h : b < 256) :
    crcRounds 8 (c ^^^ b) = crcSpecBits 8 c b := by
  have h8 : b >>> 8 = 0 := by
    simp only [Nat.shiftRight_eq_div_pow]
    omega
  rw [crcRounds_eq_specBits 8 c b, h8, Nat.xor_zero]

theorem crc_fold_eq (data : List Nat) :
    ∀ c : Nat, (∀ x ∈ data, x < 256) →
    data.foldl (fun c byte => crcRounds 8 (c ^^^ byte)) c
      = data.foldl (fun c byte => crcSpecBits 8 c byte) c := by
  induction data with
  | nil => intro c _; rfl
  | cons hd tl ih =>
    intro c hall
    simp only [List.foldl_cons]
    rw [crcRounds8_byte c hd (hall hd (by simp))]
    exact ih _ (fun x hx => hall x (by simp [hx]))

/-- C7: calculate_crc32 computes the CRC-32/ISO-HDLC checksum the spec
describes — it coincides with the bit-serial reflected-0xEDB88320 CRC with
initial and final XOR 0xFFFFFFFF on every byte sequence, produces the
ISO-HDLC check value 0xCBF43926 on the standard test vector "123456789",
is deterministic, and is order-sensitive. -/
theorem C7_crc32_iso_hdlc :
    (∀ data : List Nat, (∀ x ∈ data, x < 256) →
      calculate_crc32 data = crc32_spec data)
    ∧ calculate_crc32 [49, 50, 51, 52, 53, 54, 55, 56, 57] = 0xCBF43926
    ∧ (∀ a b : List Nat, a = b → calculate_crc32 a = calculate_crc32 b)
    ∧ calculate_crc32 [1, 2] ≠ calculate_crc32 [2, 1] := by
  refine ⟨?_, by decide, ?_, by decide⟩
  · intro data hall
    unfold calculate_crc32 crc32_spec
    rw [crc_fold_eq data 0xFFFFFFFF hall]
  · intro a b h
    rw [h]

/-- C7 witness: the equivalence applied to a concrete byte sequence. -/
theorem C7_crc32_witness :
    calculate_crc32 [0, 255, 16] = crc32_spec [0, 255, 16] :=
  C7_crc32_iso_hdlc.1 [0, 255, 16] (by decide)

/-- Byte-level storage_esp::_load_metadata (storage_esp.cpp lines
816-837): a fopen failure (absent or unreadable object) yields the default
record; otherwise fread(&metadata, sizeof, 1) returns 1 exactly when at
least sizeof bytes are available, copying the sizeof-byte prefix into the
struct — there is no get_file_size exact-size check, so an oversized
object decodes to its prefix instead of the default.  (The C++ sizeof is
40 via storage_esp.h's timestamp field, which FVMeta omits; the loader is
modelled over the shared 36-byte layout, which preserves the presence or
absence of the exact-size check.) -/
def esp_load_metadata_blob : Option (List Nat) → FVMeta
  | none => defaultMeta
  | some bs =>
      if 36 ≤ bs.length then decodeMeta (bs.take 36) else defaultMeta

theorem decodeMeta_encodeMeta (m : FVMeta) (hm : MetaWF m) :
    decodeMeta (encodeMeta m) = m := by
  obtain ⟨h1, h2, h3, h4, h5, h6⟩ := hm
  obtain ⟨cv, fs, ck, vc, vs⟩ := m
  simp only [U32_MOD] at h1 h2 h3 h4
  simp only at h5 h6
  rcases vs with _ | ⟨a, vs⟩
  · simp at h5
  rcases vs with _ | ⟨b, vs⟩
  · simp at h5
  rcases vs with _ | ⟨c, vs⟩
  · simp at h5
  rcases vs with _ | ⟨d, vs⟩
  · simp at h5
  rcases vs with _ | ⟨e, vs⟩
  · simp at h5
  rcases vs with _ | ⟨f, vs⟩
  swap
  · simp at h5
  have ha : a < 4294967296 := by
    have := h6 a (by simp)
    simpa [U32_MOD] using this
  have hb : b < 4294967296 := by
    have := h6 b (by simp)
    simpa [U32_MOD] using this
  have hc : c < 4294967296 := by
    have := h6 c (by simp)
    simpa [U32_MOD] using this
  have hd : d < 4294967296 := by
    have := h6 d (by simp)
    simpa [U32_MOD] using this
  have he : e < 4294967296 := by
    have := h6 e (by simp)
    simpa [U32_MOD] using this
  simp only [encodeMeta, encodeU32, List.foldr_cons, List.foldr_nil,
    List.cons_append, List.nil_append]
  simp only [decodeMeta, decodeU32at, List.length_cons, List.length_nil,
    List.getD]
  norm_num
  refine ⟨by omega, by omega, by omega, by omega, by omega, by omega,
    by omega, by omega, by omega⟩

theorem encodeU32_length (n : Nat) : (encodeU32 n).length = 4 := rfl

theorem encodeVersions_length : ∀ vs : List Nat,
    (vs.foldr (fun v acc => encodeU32 v ++ acc) []).length = 4 * vs.length := by
  intro vs
  induction vs with
  | nil => rfl
  | cons a tl ih =>
    simp only [List.foldr_cons, List.length_append, encodeU32_length, ih,
      List.length_cons]
    omega

theorem encodeMeta_length (m : FVMeta) (h : m.versions.length = 5) :
    (encodeMeta m).length = 36 := by
  simp only [encodeMeta, List.length_append, encodeU32_length,
    encodeVersions_length, h]

/-- C6 counterexample: storage_esp::_load_metadata on a stored object of
40 bytes — a length that does not exactly match the expected encoded size
— returns the decoded prefix record, not the default record. -/
theorem C6_esp_oversized_prefix :
    esp_load_metadata_blob
        (some (encodeMeta ⟨7, 1, 2, 0, [0, 0, 0, 0, 0]⟩ ++ [1, 2, 3, 4]))
      = ⟨7, 1, 2, 0, [0, 0, 0, 0, 0]⟩
    ∧ esp_load_metadata_blob
        (some (encodeMeta ⟨7, 1, 2, 0, [0, 0, 0, 0, 0]⟩ ++ [1, 2, 3, 4]))
      ≠ defaultMeta
    ∧ (encodeMeta ⟨7, 1, 2, 0, [0, 0, 0, 0, 0]⟩ ++ [1, 2, 3, 4]).length
      ≠ 36 := by
  decide

/-- C6 amended: file_versioning::load_metadata checks the stored size
against the exact encoded size, so absent, unreadable or wrong-size
objects all load as the default record and an exact-size well-formed blob
decodes losslessly to the stored record, no partial decode exposed;
storage_esp::_load_metadata lacks the exact-size check — absent,
unreadable and too-short objects load as the default record, but an
oversized object decodes to its sizeof-byte prefix rather than the
default. -/
theorem C6_metadata_codec :
    (∀ bs : List Nat, bs.length ≠ 36 → decodeMeta bs = defaultMeta)
    ∧ load_metadata_blob none = defaultMeta
    ∧ (∀ m : FVMeta, MetaWF m →
        load_metadata_blob (some (encodeMeta m)) = m)
    ∧ esp_load_metadata_blob none = defaultMeta
    ∧ (∀ bs : List Nat, bs.length < 36 →
        esp_load_metadata_blob (some bs) = defaultMeta)
    ∧ (∀ m : FVMeta, MetaWF m → ∀ extra : List Nat,
        esp_load_metadata_blob (some (encodeMeta m ++ extra)) = m) := by
  refine ⟨?_, rfl, ?_, rfl, ?_, ?_⟩
  · intro bs h
    simp [decodeMeta, h]
  · intro m hm
    have hlen : (encodeMeta m).length = 36 := encodeMeta_length m hm.2.2.2.2.1
    simp only [load_metadata_blob]
    rw [if_pos hlen]
    exact decodeMeta_encodeMeta m hm
  · intro bs h
    simp only [esp_load_metadata_blob]
    rw [if_neg (by omega)]
  · intro m hm extra
    have hlen : (encodeMeta m).length = 36 := encodeMeta_length m hm.2.2.2.2.1
    simp only [esp_load_metadata_blob]
    rw [if_pos (by simp [List.length_append, hlen]),
      List.take_left' hlen]
    exact decodeMeta_encodeMeta m hm

/-- C6 witness: the exact-size round-trip and the oversized prefix decode
applied to a concrete record. -/
theorem C6_codec_witness :
    load_metadata_blob (some (encodeMeta
      ⟨7, 300, 123456789, 2, [5, 6, 0, 0, 0]⟩))
      = ⟨7, 300, 123456789, 2, [5, 6, 0, 0, 0]⟩
    ∧ esp_load_metadata_blob (some (encodeMeta
      ⟨7, 300, 123456789, 2, [5, 6, 0, 0, 0]⟩ ++ [0, 0, 0, 0]))
      = ⟨7, 300, 123456789, 2, [5, 6, 0, 0, 0]⟩ :=
  ⟨C6_metadata_codec.2.2.1 ⟨7, 300, 123456789, 2, [5, 6, 0, 0, 0]⟩
      (by decide),
    C6_metadata_codec.2.2.2.2.2 ⟨7, 300, 123456789, 2, [5, 6, 0, 0, 0]⟩
      (by decide) [0, 0, 0, 0]⟩

/-! Path disequalities: the metadata and archive suffixes never collide
with the unsuffixed key. -/

theorem metaPath_ne_key (key : String) : metaPath key ≠ key := by
  intro h
  have hl := congrArg String.length h
  rw [metaPath, String.length_append] at hl
  have h5 : (".meta" : String).length = 5 := rfl
  omega

theorem versionPath_ne_key (key : String) (v : Nat) :
    versionPath key v ≠ key := by
  intro h
  have hl := congrArg String.length h
  rw [versionPath, String.length_append, String.length_append] at hl
  have h2 : (".v" : String).length = 2 := rfl
  omega

theorem metaPath_ne_versionPath (key : String) (v : Nat) :
    metaPath key ≠ versionPath key v := by
  intro h
  have hd := congrArg String.data h
  simp only [metaPath, versionPath, String.data_append] at hd
  rw [List.append_assoc] at hd
  have htl := List.append_cancel_left hd
  have : 'm' = 'v' := by
    have hg := congrArg (fun l => l.getD 1 ' ') htl
    simp at hg
  simp at this

/-- The effect of one successful versioned write: the write is accepted,
the persisted record is the pre-write record with current_version bumped
(mod 2^32) and size/checksum recomputed, and the key's content is the new
data. -/
theorem write_full_store (s : Store) (key : String) (data : List Nat)
    (hm : s.mounted = true) (hk : s.failWrites.contains key = false)
    (hmp : s.failWrites.contains (metaPath key) = false) :
    (write_full s key data).2 = true
    ∧ load_metadata (write_full s key data).1 key
        = { load_metadata s key with
            current_version :=
              ((load_metadata s key).current_version + 1) % U32_MOD,
            file_size := data.length % U32_MOD,
            checksum := calculate_crc32 data }
    ∧ readBytes (write_full s key data).1 key = some data := by
  have hobp := on_before_write_proceeds s key data
  have hS1 : (on_before_write s key data).1
      = (writeBlob (if fileExists s key then (archive_current_version s key).1
          else s) (metaPath key)
          (Blob.meta { load_metadata s key with
            current_version :=
              ((load_metadata s key).current_version + 1) % U32_MOD,
            file_size := data.length % U32_MOD,
            checksum := calculate_crc32 data })).1 := by
    simp only [on_before_write, save_metadata, hm, Bool.not_true,
      Bool.false_eq_true, if_false]
  have hS1f : (if fileExists s key then (archive_current_version s key).1
      else s).mounted = true
      ∧ (if fileExists s key then (archive_current_version s key).1
      else s).failWrites = s.failWrites := by
    by_cases hfe : fileExists s key = true
    · simp only [hfe, if_true]
      obtain ⟨x, y⟩ := archive_flags s key
      exact ⟨x.trans hm, y⟩
    · simp only [Bool.not_eq_true] at hfe
      simp only [hfe, Bool.false_eq_true, if_false]
      exact ⟨hm, by simp⟩
  have hsave : writeBlob (if fileExists s key then
      (archive_current_version s key).1 else s) (metaPath key)
      (Blob.meta { load_metadata s key with
        current_version :=
          ((load_metadata s key).current_version + 1) % U32_MOD,
        file_size := data.length % U32_MOD,
        checksum := calculate_crc32 data })
      = ({ (if fileExists s key then (archive_current_version s key).1
            else s) with
          files := setFile (if fileExists s key then
            (archive_current_version s key).1 else s).files (metaPath key)
            (Blob.meta { load_metadata s key with
              current_version :=
                ((load_metadata s key).current_version + 1) % U32_MOD,
              file_size := data.length % U32_MOD,
              checksum := calculate_crc32 data }) }, true) := by
    simp only [writeBlob, hS1f.1, hS1f.2, hmp, Bool.not_false,
      Bool.and_self, if_true]
  have hfinal : write_full s key data
      = ({ (if fileExists s key then (archive_current_version s key).1
            else s) with
          files := setFile (setFile (if fileExists s key then
            (archive_current_version s key).1 else s).files (metaPath key)
            (Blob.meta { load_metadata s key with
              current_version :=
                ((load_metadata s key).current_version + 1) % U32_MOD,
              file_size := data.length % U32_MOD,
              checksum := calculate_crc32 data })) key
            (Blob.bytes data) }, true) := by
    simp only [write_full, hobp, if_true, hS1, hsave]
    simp only [writeBlob, hS1f.1, hS1f.2, hk, Bool.not_false, Bool.and_self,
      if_true]
  refine ⟨by rw [hfinal], ?_, ?_⟩
  · rw [hfinal]
    simp only [load_metadata, hS1f.1, if_true,
      lookupFile_setFile_ne _ key (metaPath key) _
        (fun h => metaPath_ne_key key h.symm),
      lookupFile_setFile_self]
  · rw [hfinal]
    simp only [readBytes, hS1f.1, if_true, lookupFile_setFile_self]

/-- storage_esp::restore_file_version (storage_esp.cpp lines 720-762):
the archived object must exist (stat at line 734), its bytes are read
back, and the content is re-issued through the public
storage_esp::write_file of lines 272-308 — a RAW byte write that performs
no versioning and touches no metadata.  The re-acquisition of
storage_mutex by that nested write_file call is modelled separately by the
lock traces (esp_restore_trace, C4); the data flow here is the one the
source specifies had the nested acquisition been granted. -/
def esp_restore_file_version (s : Store) (key : String) (version : Nat) :
    Store × Bool :=
  if !s.mounted then (s, false)
  else
    match lookupFile s.files (versionPath key version) with
    | some (.bytes data) => writeBlob s key (.bytes data)
    | _ => (s, false)

/-- A mounted store whose key "f" is at current version 3 and still holds
the archived version-2 object. -/
def sRestore : Store :=
  { files := [("f", .bytes [5]),
      ("f.meta", .meta ⟨3, 1, 0, 0, [0, 0, 0, 0, 0]⟩),
      ("f.v2", .bytes [9, 8])],
    mounted := true, failWrites := [] }

/-- C2 counterexample: in the storage_esp implementation the claim fails —
restoring the existing archived version 2 succeeds, but current_version
stays at 3 instead of increasing by exactly 1, because the line-755
re-issue goes through the raw write_file and never touches the metadata. -/
theorem C2_esp_restore_no_bump :
    (esp_restore_file_version sRestore "f" 2).2 = true
    ∧ get_file_version sRestore "f" = 3
    ∧ get_file_version (esp_restore_file_version sRestore "f" 2).1 "f"
        = 3 := by
  decide

/-- C2 amended: in the file_versioning engine (whose host wires write_file
through on_before_write), restoring an existing non-empty archived version
succeeds, bumps the persisted current_version by exactly one (history is
append-only in version-number space), and a subsequent read of the current
content returns exactly the archived bytes; in the storage_esp
implementation the restore succeeds and restores the content, but the
re-issued write is the raw write_file, so the metadata record — including
current_version — is left completely unchanged. -/
theorem C2_restore_bumps_version :
    (∀ (s : Store) (key : String) (v : Nat) (data : List Nat),
      s.mounted = true →
      lookupFile s.files (versionPath key v) = some (.bytes data) →
      data ≠ [] →
      s.failWrites.contains key = false →
      s.failWrites.contains (metaPath key) = false →
      (restore_file_version s key v).2 = true
      ∧ (load_metadata (restore_file_version s key v).1 key).current_version
          = ((load_metadata s key).current_version + 1) % U32_MOD
      ∧ read_file_version (restore_file_version s key v).1 key 0 data.length
          = some data)
    ∧ (∀ (s : Store) (key : String) (v : Nat) (data : List Nat),
      s.mounted = true →
      lookupFile s.files (versionPath key v) = some (.bytes data) →
      s.failWrites.contains key = false →
      (esp_restore_file_version s key v).2 = true
      ∧ load_metadata (esp_restore_file_version s key v).1 key
          = load_metadata s key
      ∧ read_file_version (esp_restore_file_version s key v).1 key 0
          data.length = some data) := by
  constructor
  · intro s key v data hm hv hne hk hmp
    have hsz : fileSize s (versionPath key v) = data.length := by
      simp [fileSize, hm, hv, blobSize]
    have hsz0 : ¬ fileSize s (versionPath key v) = 0 := by
      rw [hsz]
      simpa using hne
    have hrb : readBytes s (versionPath key v) = some data := by
      simp [readBytes, hm, hv]
    have hrest : restore_file_version s key v = write_full s key data := by
      simp only [restore_file_version, hm, Bool.not_true, Bool.false_eq_true,
        if_false, hsz0, hrb]
    obtain ⟨hw1, hw2, hw3⟩ := write_full_store s key data hm hk hmp
    rw [hrest]
    have hfm : ((write_full s key data).1).mounted = true := by
      have h1 := (writeBlob_flags (on_before_write s key data).1 key
        (Blob.bytes data)).1
      have h2 := (on_before_write_flags s key data).1
      have : write_full s key data
          = writeBlob (on_before_write s key data).1 key (Blob.bytes data) := by
        simp [write_full, on_before_write_proceeds]
      rw [this, h1, h2, hm]
    refine ⟨hw1, by rw [hw2], ?_⟩
    simp only [read_file_version, hfm, Bool.not_true, Bool.false_eq_true,
      if_false, if_pos rfl, hw3, le_refl, if_true, List.take_length]
  · intro s key v data hm hv hk
    have hres : esp_restore_file_version s key v
        = ({ s with files := setFile s.files key (Blob.bytes data) },
            true) := by
      simp only [esp_restore_file_version, hm, Bool.not_true,
        Bool.false_eq_true, if_false, hv]
      simp only [writeBlob, hm, hk, Bool.not_false, Bool.and_self, if_true]
    refine ⟨by rw [hres], ?_, ?_⟩
    · rw [hres]
      simp only [load_metadata, hm, if_true,
        lookupFile_setFile_ne _ key (metaPath key) _
          (fun h => metaPath_ne_key key h.symm)]
    · rw [hres]
      simp only [read_file_version, hm, Bool.not_true, Bool.false_eq_true,
        if_false, if_pos rfl, readBytes, lookupFile_setFile_self, le_refl,
        if_true, List.take_length]

/-- C2 witness: both halves applied to the store at version 3 holding the
archived version-2 object. -/
theorem C2_restore_witness :
    ((restore_file_version sRestore "f" 2).2 = true
    ∧ (load_metadata (restore_file_version sRestore "f" 2).1
        "f").current_version = (3 + 1) % U32_MOD
    ∧ read_file_version (restore_file_version sRestore "f" 2).1 "f" 0 2
        = some [9, 8])
    ∧ ((esp_restore_file_version sRestore "f" 2).2 = true
    ∧ load_metadata (esp_restore_file_version sRestore "f" 2).1 "f"
        = load_metadata sRestore "f"
    ∧ read_file_version (esp_restore_file_version sRestore "f" 2).1 "f" 0 2
        = some [9, 8]) :=
  ⟨C2_restore_bumps_version.1 sRestore "f" 2 [9, 8]
      rfl (by decide) (by decide) (by decide) (by decide),
    C2_restore_bumps_version.2 sRestore "f" 2 [9, 8]
      rfl (by decide) (by decide)⟩

/-! Engine-produced metadata: every record the engine persists keeps
version_count within the configured history depth and the versions array at
its fixed capacity, so the eviction loop of cleanup_old_versions never
runs. -/

theorem mem_setFile (p : String) (b : Blob) (x : String × Blob) :
    ∀ fs : List (String × Blob),
    x ∈ setFile fs p b → x = (p, b) ∨ x ∈ fs := by
  intro fs
  induction fs with
  | nil =>
    intro hx
    simp only [setFile, List.mem_singleton] at hx
    exact Or.inl hx
  | cons hd tl ih =>
    obtain ⟨r, c⟩ := hd
    intro hx
    by_cases hrp : r = p
    · subst hrp
      simp only [setFile, if_pos rfl] at hx
      rcases List.mem_cons.mp hx with hx1 | hx1
      · exact Or.inl hx1
      · exact Or.inr (List.mem_cons_of_mem _ hx1)
    · simp only [setFile, if_neg hrp] at hx
      rcases List.mem_cons.mp hx with hx1 | hx1
      · exact Or.inr (by simp [hx1])
      · rcases ih hx1 with hx2 | hx2
        · exact Or.inl hx2
        · exact Or.inr (List.mem_cons_of_mem _ hx2)

theorem mem_removeFile (p : String) (x : String × Blob) :
    ∀ fs : List (String × Blob), x ∈ removeFile fs p → x ∈ fs := by
  intro fs
  induction fs with
  | nil =>
    intro hx
    simp [removeFile] at hx
  | cons hd tl ih =>
    obtain ⟨r, c⟩ := hd
    intro hx
    by_cases hrp : r = p
    · subst hrp
      simp only [removeFile, if_pos rfl] at hx
      exact List.mem_cons_of_mem _ hx
    · simp only [removeFile, if_neg hrp] at hx
      rcases List.mem_cons.mp hx with hx1 | hx1
      · simp [hx1]
      · exact List.mem_cons_of_mem _ (ih hx1)

theorem lookupFile_mem (q : String) (b : Blob) :
    ∀ fs : List (String × Blob),
    lookupFile fs q = some b → (q, b) ∈ fs := by
  intro fs
  induction fs with
  | nil =>
    intro h
    simp [lookupFile] at h
  | cons hd tl ih =>
    obtain ⟨r, c⟩ := hd
    intro h
    by_cases hrq : r = q
    · subst hrq
      rw [lookupFile, if_pos rfl] at h
      have : c = b := by
        simpa using h
      simp [this]
    · rw [lookupFile, if_neg hrq] at h
      exact List.mem_cons_of_mem _ (ih h)

/-- A record whose history count is within the configured depth and whose
versions array is at its fixed capacity. -/
def MetaBound (m : FVMeta) : Prop :=
  m.version_count ≤ STORAGE_MAX_VERSION_HISTORY ∧ m.versions.length = 5

/-- Every metadata record held in the byte store is within bounds. -/
def metaOK (s : Store) : Prop :=
  ∀ (p : String) (r : FVMeta), (p, Blob.meta r) ∈ s.files → MetaBound r

theorem metaBound_default : MetaBound defaultMeta := by
  constructor
  · simp [defaultMeta, STORAGE_MAX_VERSION_HISTORY]
  · simp [defaultMeta]

theorem load_metadata_bound (s : Store) (key : String) (h : metaOK s) :
    MetaBound (load_metadata s key) := by
  unfold load_metadata
  by_cases hsm : s.mounted = true
  · rw [if_pos hsm]
    cases hl : lookupFile s.files (metaPath key) with
    | none => exact metaBound_default
    | some b =>
      cases b with
      | bytes bs => exact metaBound_default
      | meta r => exact h _ r (lookupFile_mem _ _ _ hl)
  · rw [if_neg hsm]
    exact metaBound_default

theorem shiftFrom_length (n : Nat) :
    ∀ (vs : List Nat) (i : Nat), (shiftFrom vs i n).length = vs.length := by
  induction n with
  | zero => intro vs i; rfl
  | succ k ih =>
    intro vs i
    simp only [shiftFrom]
    rw [ih]
    simp

theorem cleanupShift_bound (m : FVMeta) (idx : Nat) (h : MetaBound m) :
    MetaBound (cleanupShift m idx) := by
  obtain ⟨h1, h2⟩ := h
  constructor
  · simp only [cleanupShift]
    omega
  · simp [cleanupShift, shiftFrom_length, h2]

theorem cleanup_oldest_bound (s : Store) (key : String) (m : FVMeta)
    (h : MetaBound m) : MetaBound ((cleanup_oldest_version s key m).2.1) := by
  simp only [cleanup_oldest_version]
  split
  · exact h
  · split
    · exact cleanupShift_bound m _ h
    · exact h

theorem metaOK_writeBytes (s : Store) (p : String) (bs : List Nat)
    (h : metaOK s) : metaOK ((writeBlob s p (.bytes bs)).1) := by
  unfold writeBlob
  split
  · intro q r hm
    rcases mem_setFile _ _ _ _ hm with he | hin
    · simp at he
    · exact h q r hin
  · exact h

theorem metaOK_writeMeta (s : Store) (p : String) (m' : FVMeta)
    (h : metaOK s) (hb : MetaBound m') :
    metaOK ((writeBlob s p (.meta m')).1) := by
  unfold writeBlob
  split
  · intro q r hm
    rcases mem_setFile _ _ _ _ hm with he | hin
    · have : r = m' := by
        simpa using congrArg Prod.snd he
      rw [this]
      exact hb
    · exact h q r hin
  · exact h

theorem metaOK_delete (s : Store) (p : String) (h : metaOK s) :
    metaOK ((deleteFile s p).1) := by
  unfold deleteFile
  split
  · intro q r hm
    exact h q r (mem_removeFile _ _ _ hm)
  · exact h

theorem metaOK_cleanup_oldest (s : Store) (key : String) (m : FVMeta)
    (h : metaOK s) : metaOK ((cleanup_oldest_version s key m).1) := by
  simp only [cleanup_oldest_version]
  split
  · exact h
  · split
    · exact metaOK_delete s _ h
    · exact h

theorem metaOK_archive (s : Store) (key : String) (h : metaOK s) :
    metaOK ((archive_current_version s key).1) := by
  have hload := load_metadata_bound s key h
  simp only [archive_current_version]
  split
  · exact h
  · split
    · exact h
    · split
      · exact h
      · next content heq =>
        split
        · exact metaOK_writeBytes s _ content h
        · split
          · exact metaOK_writeBytes s _ content h
          · split
            · next hlt =>
              apply metaOK_writeMeta
              · exact metaOK_writeBytes s _ content h
              · refine ⟨?_, ?_⟩
                · show (load_metadata s key).version_count + 1
                    ≤ STORAGE_MAX_VERSION_HISTORY
                  simp only [STORAGE_MAX_VERSION_HISTORY] at hlt ⊢
                  omega
                · show ((load_metadata s key).versions.set
                    (load_metadata s key).version_count
                    (load_metadata s key).current_version).length = 5
                  simp [hload.2]
            · next hge =>
              apply metaOK_writeMeta
              · exact metaOK_cleanup_oldest _ key _
                  (metaOK_writeBytes s _ content h)
              · have hb := cleanup_oldest_bound
                  (writeBlob s (versionPath key
                    (load_metadata s key).current_version)
                    (Blob.bytes content)).1 key (load_metadata s key) hload
                exact ⟨hb.1, by simp [hb.2]⟩

theorem metaOK_on_before_write (s : Store) (key : String) (data : List Nat)
    (h : metaOK s) : metaOK ((on_before_write s key data).1) := by
  have hload := load_metadata_bound s key h
  simp only [on_before_write]
  split
  · exact h
  · apply metaOK_writeMeta
    · by_cases hfe : fileExists s key = true
      · simp only [hfe, if_true]
        exact metaOK_archive s key h
      · simp only [Bool.not_eq_true] at hfe
        simp only [hfe, Bool.false_eq_true, if_false]
        exact h
    · exact ⟨hload.1, hload.2⟩

theorem metaOK_write_full (s : Store) (key : String) (data : List Nat)
    (h : metaOK s) : metaOK ((write_full s key data).1) := by
  simp only [write_full, on_before_write_proceeds, if_true]
  exact metaOK_writeBytes _ key data (metaOK_on_before_write s key data h)

theorem metaOK_restore (s : Store) (key : String) (v : Nat) (h : metaOK s) :
    metaOK ((restore_file_version s key v).1) := by
  simp only [restore_file_version]
  split
  · exact h
  · split
    · exact h
    · split
      · exact h
      · exact metaOK_write_full s key _ h

theorem cleanupLoop_zero (fuel : Nat) (s : Store) (key : String)
    (m : FVMeta) (hb : m.version_count ≤ STORAGE_MAX_VERSION_HISTORY) :
    cleanupLoop fuel s key m 0 = (s, m, 0) := by
  cases fuel with
  | zero => rfl
  | succ k =>
    simp only [cleanupLoop]
    rw [if_neg (by omega)]

theorem cleanup_old_zero (s : Store) (key : String) (h : metaOK s) :
    (cleanup_old_versions s key).2 = 0 := by
  simp only [cleanup_old_versions]
  split
  · rfl
  · rw [cleanupLoop_zero _ _ _ _ (load_metadata_bound s key h).1]
    simp

theorem metaOK_cleanup_old (s : Store) (key : String) (h : metaOK s) :
    metaOK ((cleanup_old_versions s key).1) := by
  simp only [cleanup_old_versions]
  split
  · exact h
  · rw [cleanupLoop_zero _ _ _ _ (load_metadata_bound s key h).1]
    simp only [Nat.lt_irrefl, if_false]
    exact h

/-- Byte-store states reachable from an empty store by the engine's
mutating operations. -/
inductive Reach : Store → Prop where
  | base : ∀ (mounted : Bool) (fw : List String), Reach ⟨[], mounted, fw⟩
  | write : ∀ (s : Store) (key : String) (data : List Nat), Reach s →
      Reach ((write_full s key data).1)
  | restore : ∀ (s : Store) (key : String) (v : Nat), Reach s →
      Reach ((restore_file_version s key v).1)
  | archive : ∀ (s : Store) (key : String), Reach s →
      Reach ((archive_current_version s key).1)
  | cleanup : ∀ (s : Store) (key : String), Reach s →
      Reach ((cleanup_old_versions s key).1)

theorem reach_metaOK (s : Store) (h : Reach s) : metaOK s := by
  induction h with
  | base mounted fw =>
    intro p r hm
    simp at hm
  | write s key data _ ih => exact metaOK_write_full s key data ih
  | restore s key v _ ih => exact metaOK_restore s key v ih
  | archive s key _ ih => exact metaOK_archive s key ih
  | cleanup s key _ ih => exact metaOK_cleanup_old s key ih

/-- C10: on every store reachable from the empty store by engine
operations, the persisted metadata keeps version_count within
STORAGE_MAX_VERSION_HISTORY, so cleanup_old_versions finds nothing beyond
the limit and returns 0; and a record encoded under a different history
depth has a different byte length, fails the exact-size check, and is
replaced by the default record. -/
theorem C10_cleanup_returns_zero :
    (∀ (s : Store) (key : String), Reach s →
      (cleanup_old_versions s key).2 = 0)
    ∧ (∀ bs : List Nat, bs.length ≠ 36 → decodeMeta bs = defaultMeta) := by
  constructor
  · intro s key h
    exact cleanup_old_zero s key (reach_metaOK s h)
  · intro bs h
    simp [decodeMeta, h]

/-- C10 witness: cleanup after one write to a fresh key returns 0. -/
theorem C10_cleanup_witness :
    (cleanup_old_versions (write_full ⟨[], true, []⟩ "f" [1]).1 "f").2 = 0 :=
  C10_cleanup_returns_zero.1 (write_full ⟨[], true, []⟩ "f" [1]).1 "f"
    (Reach.write ⟨[], true, []⟩ "f" [1] (Reach.base true []))

end StorageDriver
